import Mathlib

/-!
Verification of the analysis/data engine of BHS_RestInfo.

Timestamps are modelled as integers counting microseconds (the resolution of
Python `datetime`); levels are integers (millimetres) and temperatures are
rationals (Python floats, modelled exactly).
-/

/-- Number of microseconds in one second. -/
def usPerSec : Int := 1000000

/-- Number of microseconds in one hour. -/
def usPerHour : Int := 3600000000

/-- Number of microseconds in one day. -/
def usPerDay : Int := 86400000000

/-- A tank-level reading (`TankLevel` row): timestamp and measured
distance from the sensor to the surface, in millimetres. -/
structure TankLevel where
  timestamp : Int
  level : Int
deriving DecidableEq

/-- Python `ts.replace(hour=0, minute=0, second=0)`: keeps the date and the
microsecond part, zeroes hour, minute, second. -/
def replaceMidnight (t : Int) : Int :=
  t - t.emod usPerDay + t.emod usPerSec

/-- Python `ts.replace(hour=23, minute=59, second=59)`: keeps the date and the
microsecond part, sets the time of day to 23:59:59. -/
def replaceEndOfDay (t : Int) : Int :=
  t - t.emod usPerDay + 86399 * usPerSec + t.emod usPerSec

/-- Python `ts.replace(minute=0, second=0, microsecond=0)`: floor to the hour. -/
def floorHour (t : Int) : Int :=
  t - t.emod usPerHour

/-- Python `ts.replace(hour=0, minute=0, second=0, microsecond=0)`: floor to
the day. -/
def floorDay (t : Int) : Int :=
  t - t.emod usPerDay

/-- Python slice `l[a:b]` for `0 ≤ a, b`. -/
def pySlice (l : List α) (a b : Nat) : List α :=
  (l.drop a).take (b - a)

/-- The spliced record list of `CesspitHistory.__init__`: the window records,
with the adherent-previous record prepended and the adherent-next record
appended when present (`self._records`). -/
def splicedRecords (records : List TankLevel) (adhPrev adhNext : Option TankLevel) :
    List TankLevel :=
  adhPrev.toList ++ records ++ adhNext.toList

/-- The `_timeline` built by `CesspitHistory.__init__`: timestamps of the
window records; a spliced adherent-previous contributes the first record's
day start (via `replace(hour=0, minute=0, second=0)`) unless the window is
empty, in which case its own timestamp; symmetrically the adherent-next
contributes the last record's 23:59:59. -/
def splicedTimeline (records : List TankLevel) (adhPrev adhNext : Option TankLevel) :
    List Int :=
  let base := records.map (·.timestamp)
  let withP :=
    match adhPrev with
    | none => base
    | some pr =>
        (match records with
         | [] => pr.timestamp
         | r :: _ => replaceMidnight r.timestamp) :: base
  match adhNext with
  | none => withP
  | some nr =>
      withP ++ [match records.getLast? with
                | none => nr.timestamp
                | some r => replaceEndOfDay r.timestamp]

/-- The `_levels` built by `CesspitHistory.__init__`: window levels clamped
from below by `tank_full_mm` (`_r.level if _r.level > tank_full else tank_full`);
adherent records contribute their levels verbatim. -/
def splicedLevels (records : List TankLevel) (adhPrev adhNext : Option TankLevel)
    (tankFull : Int) : List Int :=
  let base := records.map (fun r => if r.level > tankFull then r.level else tankFull)
  let withP :=
    match adhPrev with
    | none => base
    | some pr => pr.level :: base
  match adhNext with
  | none => withP
  | some nr => withP ++ [nr.level]

/-- `_deltas`: pairwise differences `prv - nxt` over consecutive levels
(`zip(levels[:-1], levels[1:])`). -/
def deltasOf (levels : List Int) : List Int :=
  List.zipWith (· - ·) levels levels.tail

/-- `_removals_d`: indices of the strictly negative deltas, in order
(`[i for i, d in zip(range(len(deltas)), deltas) if d < 0]`). -/
def removalIdxs (deltas : List Int) : List Nat :=
  ((List.range deltas.length).zip deltas).filterMap
    (fun p => if p.2 < 0 then some p.1 else none)

/-- The slice family `[l[ib:ie] for ib, ie in zip([0]+cuts, cuts+[len(l)])]`
used for `_continuous_timelines` and `_continuous_levels`. -/
def codeSegs (l : List α) (cuts : List Nat) : List (List α) :=
  ((0 :: cuts).zip (cuts ++ [l.length])).map (fun p => pySlice l p.1 p.2)

/-- The slice family `[l[ib+1:ie] for ib, ie in zip([0]+cuts, cuts+[len(l)])]`
used for `_deltas_timeline`. -/
def codeDropSegs (l : List α) (cuts : List Nat) : List (List α) :=
  ((0 :: cuts).zip (cuts ++ [l.length])).map (fun p => pySlice l (p.1 + 1) p.2)

/-- The slice family `[l[ib+1:ie] for ib, ie in zip([-1]+cuts, cuts+[len(l)])]`
used for `_deltas` (note the `-1` sentinel, so the first slice starts at 0). -/
def codeDropSegsZ (l : List α) (cuts : List Nat) : List (List α) :=
  (((-1 : Int) :: cuts.map Int.ofNat).zip (cuts.map Int.ofNat ++ [(l.length : Int)])).map
    (fun p => pySlice l (p.1 + 1).toNat p.2.toNat)

/-- The fully initialized state of a `CesspitHistory` object (the fields
computed eagerly in `__init__`). -/
structure CesspitHistory where
  records : List TankLevel
  tankFull : Int
  tankEmpty : Int
  timeline : List Int
  levels : List Int
  continuousTimelines : List (List Int)
  continuousLevels : List (List Int)
  deltasTimeline : List Int
  deltas : List Int
deriving DecidableEq

/-- `CesspitHistory.__init__`: splices adherent records, clamps window levels,
computes deltas, detects removals (negative deltas), slices the timeline and
levels into continuous runs and keeps only the deltas that do not span a
removal. -/
def mkCesspitHistory (records : List TankLevel) (adhPrev adhNext : Option TankLevel)
    (tankFull tankEmpty : Int) : CesspitHistory :=
  let tl := splicedTimeline records adhPrev adhNext
  let lv := splicedLevels records adhPrev adhNext tankFull
  let ds := deltasOf lv
  let rD := removalIdxs ds
  let rTm := rD.map (· + 1)
  { records := splicedRecords records adhPrev adhNext
    tankFull := tankFull
    tankEmpty := tankEmpty
    timeline := tl
    levels := lv
    continuousTimelines := codeSegs tl rTm
    continuousLevels := codeSegs lv rTm
    deltasTimeline := (codeDropSegs tl rTm).flatten
    deltas := (codeDropSegsZ ds rD).flatten }

/-- `CesspitHistory.is_valid`: the spliced record list is non-empty and the
calibration levels satisfy `tank_full_mm < tank_empty_mm` (both are always
present here, being integer fields; the source additionally checks them
against `None`). -/
def cesspitIsValid (h : CesspitHistory) : Bool :=
  h.records.length > 0 && h.tankFull < h.tankEmpty

/-- `CesspitHistory._fill_perc`: fill percentage of the tank for a measured
level. -/
def fillPerc (h : CesspitHistory) (level : Int) : ℚ :=
  100 * ((h.tankEmpty : ℚ) - (level : ℚ)) / ((h.tankEmpty : ℚ) - (h.tankFull : ℚ))

/-- One cluster definition of `CesspitHistory._cluster`: optional lower bound
(exclusive) and optional upper bound (inclusive). -/
def clusterDefs (tops : List Int) : List (Option Int × Option Int) :=
  (none :: tops.map some).zip (tops.map some ++ [none])

/-- Membership test of one cluster of `CesspitHistory._cluster`:
`(lo is None or lo < v) and (hi is None or v <= hi)`. -/
def bucketMatch (lo hi : Option Int) (v : Int) : Bool :=
  (match lo with | none => true | some l => decide (l < v)) &&
  (match hi with | none => true | some u => decide (v ≤ u))

/-- The inner loop of `CesspitHistory._cluster`: scan the cluster definitions
in order and stop at the first match (`break`). -/
def findFirstMatch (defs : List (Option Int × Option Int)) (v : Int) : Option Nat :=
  match defs with
  | [] => none
  | d :: rest =>
      if bucketMatch d.1 d.2 v then some 0
      else (findFirstMatch rest v).map (· + 1)

/-- Append a value to the bucket at a given index. -/
def insertAt (buckets : List (List Int)) (i : Nat) (v : Int) : List (List Int) :=
  buckets.set i (buckets.getD i [] ++ [v])

/-- `CesspitHistory._cluster` applied to `(timestamp, delta)` pairs: each pair
is appended to the first cluster whose bounds accept its timestamp; a pair
accepted by no cluster is dropped. -/
def clusterBuckets (tops : List Int) (objs : List (Int × Int)) : List (List Int) :=
  objs.foldl
    (fun acc tv =>
      match findFirstMatch (clusterDefs tops) tv.1 with
      | some i => insertAt acc i tv.2
      | none => acc)
    (List.replicate (tops.length + 1) [])

/-- Python `sum` over a list of integers. -/
def sumInt (l : List Int) : Int :=
  l.foldl (· + ·) 0

/-- The per-hour timeline of `CesspitHistory._init_ph`: round hours from the
floor of the first spliced record's timestamp, `int((stop-start)/3600)+1`
marks in total (empty record list would raise in the source; modelled as an
empty timeline). -/
def cesspitPhTimeline (h : CesspitHistory) : List Int :=
  match h.records.head?, h.records.getLast? with
  | some f, some l =>
      let start := floorHour f.timestamp
      let cnt := ((l.timestamp - start).tdiv usPerHour + 1).toNat
      (List.range cnt).map (fun k : Nat => start + usPerHour * (k : Int))
  | _, _ => []

/-- The per-hour aggregated deltas of `CesspitHistory._init_ph`: the retained
deltas are clustered by timestamp against the per-hour timeline without its
first mark, and each cluster is summed (empty clusters give 0). -/
def cesspitPhDeltas (h : CesspitHistory) : List Int :=
  (clusterBuckets (cesspitPhTimeline h).tail (h.deltasTimeline.zip h.deltas)).map sumInt

/-- `CesspitHistory.get_per_hour_deltas_perc`. -/
def cesspitPhDeltasPerc (h : CesspitHistory) : List ℚ :=
  (cesspitPhDeltas h).map
    (fun d : Int => 100 * (d : ℚ) / ((h.tankEmpty : ℚ) - (h.tankFull : ℚ)))

/-- The per-day timeline of `CesspitHistory._init_pd`: round days from the
floor of the first spliced record's timestamp. -/
def cesspitPdTimeline (h : CesspitHistory) : List Int :=
  match h.records.head?, h.records.getLast? with
  | some f, some l =>
      let start := floorDay f.timestamp
      let cnt := ((l.timestamp - start).tdiv usPerDay + 1).toNat
      (List.range cnt).map (fun k : Nat => start + usPerDay * (k : Int))
  | _, _ => []

/-- The per-day aggregated deltas of `CesspitHistory._init_pd`. -/
def cesspitPdDeltas (h : CesspitHistory) : List Int :=
  (clusterBuckets (cesspitPdTimeline h).tail (h.deltasTimeline.zip h.deltas)).map sumInt

/-- `CesspitHistory.get_per_day_deltas_perc`. -/
def cesspitPdDeltasPerc (h : CesspitHistory) : List ℚ :=
  (cesspitPdDeltas h).map
    (fun d : Int => 100 * (d : ℚ) / ((h.tankEmpty : ℚ) - (h.tankFull : ℚ)))

/-- Modelled from the spec: the segmentation described in §4.2, splitting a
level sequence into maximal contiguous runs exactly at the indices where the
delta `v[i] - v[i+1]` is negative. Used as the specification side of the
refinement proof for the code's slice-based segmentation. -/
def specSplit : List Int → List (List Int)
  | [] => [[]]
  | [x] => [[x]]
  | x :: y :: rest =>
      match specSplit (y :: rest) with
      | [] => [[x]]
      | s :: ss => if x - y < 0 then [x] :: s :: ss else (x :: s) :: ss

/-- Result of a Python call: a value, or an uncaught exception. -/
inductive PyResult (α : Type) : Type
  | ok (val : α)
  | raises
deriving DecidableEq

/-- A temperature reading: timestamp (microseconds) and temperature in
degrees Celsius (a Python float, modelled as a rational). -/
structure TempReading where
  timestamp : Int
  temperature : ℚ
deriving DecidableEq

instance : Inhabited TempReading := ⟨⟨0, 0⟩⟩

/-- `TemperatureDailyChronology.is_valid`: at least one raw record. -/
def chronIsValid (records : List TempReading) : Bool :=
  records.length > 0

/-- The hour-of-day of a timestamp (Python `datetime.hour`). -/
def hourOfDay (t : Int) : Nat :=
  (t.emod usPerDay).toNat / 3600000000

/-- The per-hour timeline of `TemperatureDailyChronology._init_ph`: every
round hour of the date from 00:00 up to `the_date.hour` inclusive, plus one
extra mark at `the_date` itself when its hour is 23. -/
def tempPhTimeline (theDate : Int) : List Int :=
  (List.range (hourOfDay theDate + 1)).map
      (fun h : Nat => floorDay theDate + usPerHour * (h : Int))
    ++ (if hourOfDay theDate = 23 then [theDate] else [])

/-- `closest_down` of `TemperatureDailyChronology._init_ph`: overwritten on
every scanned record whose timestamp is strictly before the hour mark. -/
def closestDown (records : List TempReading) (h : Int) : Option TempReading :=
  records.foldl (fun acc r => if h > r.timestamp then some r else acc) none

/-- `closest_up` of `TemperatureDailyChronology._init_ph`: the first scanned
record whose timestamp is strictly after the hour mark. -/
def closestUp (records : List TempReading) (h : Int) : Option TempReading :=
  records.foldl
    (fun acc r => match acc with
      | some _ => acc
      | none => if h < r.timestamp then some r else none)
    none

/-- `last_hour`: records with `0 < h - ts <= 3600 s`. -/
def lastHour (records : List TempReading) (h : Int) : List TempReading :=
  records.filter (fun r => 0 < h - r.timestamp && h - r.timestamp ≤ 3600 * usPerSec)

/-- `next_hour`: records with `0 >= h - ts >= -3600 s`. -/
def nextHour (records : List TempReading) (h : Int) : List TempReading :=
  records.filter (fun r => h - r.timestamp ≤ 0 && -(3600 * usPerSec) ≤ h - r.timestamp)

/-- The observation set for one hour mark: `last_hour` if non-empty else the
closest past record, extended with `next_hour` if non-empty else the closest
future record. -/
def observationsAt (records : List TempReading) (h : Int) : List TempReading :=
  (match lastHour records h with
   | [] => (closestDown records h).toList
   | l => l) ++
  (match nextHour records h with
   | [] => (closestUp records h).toList
   | l => l)

/-- All elements equal to the first one (scipy's `amax(x) == amin(x)` check). -/
def allEqual : List ℚ → Bool
  | [] => true
  | x :: rest => rest.all (fun y => y == x)

/-- Model of `scipy.stats.linregress` restricted to the intercept: ordinary
least squares of y against x; `none` models the `ValueError` scipy raises
when there is more than one point and all x values are identical (the
caller only ever passes at least two points). -/
def linregressIntercept (pts : List (ℚ × ℚ)) : Option ℚ :=
  let xs := pts.map (·.1)
  let ys := pts.map (·.2)
  if 1 < pts.length then
    if allEqual xs then none
    else
      let n : ℚ := pts.length
      let xm := xs.sum / n
      let ym := ys.sum / n
      let sxx := (xs.map (fun x => (x - xm) ^ 2)).sum
      let sxy := (pts.map (fun p => (p.1 - xm) * (p.2 - ym))).sum
      some (ym - sxy / sxx * xm)
  else
    none

/-- The x offset in seconds used for the regression:
`(reading.timestamp - h).total_seconds()`. -/
def offsetSec (r : TempReading) (h : Int) : ℚ :=
  ((r.timestamp - h : Int) : ℚ) / 1000000

/-- The temperature estimate appended for one hour mark by
`TemperatureDailyChronology._init_ph`: the regression intercept for two or
more observations (`.raises` when the regression degenerates), the plain
temperature for a single observation, nothing for no observation. -/
def phEstimateE (records : List TempReading) (h : Int) : PyResult (Option ℚ) :=
  let obs := observationsAt records h
  if 1 < obs.length then
    match linregressIntercept (obs.map (fun r => (offsetSec r h, r.temperature))) with
    | some v => .ok (some v)
    | none => .raises
  else
    match obs with
    | [o] => .ok (some o.temperature)
    | _ => .ok none

/-- Python `min` over a non-empty list of rationals. -/
def minQ (x : ℚ) (xs : List ℚ) : ℚ :=
  xs.foldl min x

/-- Python `max` over a non-empty list of rationals. -/
def maxQ (x : ℚ) (xs : List ℚ) : ℚ :=
  xs.foldl max x

/-- The (lower, upper) error pair appended for one hour mark:
`|estimate - min|` and `|estimate - max|` over the hour's observations. -/
def phErrorPair (records : List TempReading) (h : Int) : Option (ℚ × ℚ) :=
  match phEstimateE records h, (observationsAt records h).map (·.temperature) with
  | .ok (some est), t :: ts => some (|est - minQ t ts|, |est - maxQ t ts|)
  | _, _ => none

/-- The list collected into `self._ph_temperatures` over a timeline: hour
marks with no observation contribute nothing, a degenerate regression aborts
the whole computation (uncaught `ValueError`). -/
def collectPh (records : List TempReading) : List Int → PyResult (List ℚ)
  | [] => .ok []
  | h :: hs =>
      match phEstimateE records h with
      | .raises => .raises
      | .ok none => collectPh records hs
      | .ok (some v) =>
          match collectPh records hs with
          | .raises => .raises
          | .ok vs => .ok (v :: vs)

/-- `get_raw_last`: the last raw record's timestamp and temperature; raises
`IndexError` on an empty record list. -/
def getRawLast (records : List TempReading) : PyResult (Int × ℚ) :=
  match records.getLast? with
  | some r => .ok (r.timestamp, r.temperature)
  | none => .raises

/-- `get_perhour_last`: last per-hour mark and temperature; raises
`IndexError` when the collected per-hour temperature list is empty. -/
def getPerhourLast (records : List TempReading) (theDate : Int) : PyResult (Int × ℚ) :=
  match collectPh records (tempPhTimeline theDate), (tempPhTimeline theDate).getLast? with
  | .ok ts, some hm =>
      match ts.getLast? with
      | some t => .ok (hm, t)
      | none => .raises
  | _, _ => .raises

/-- Indices of the records falling in the day partition
(`sunrise < ts < sunset`, both strict). -/
def dayIdxs (records : List TempReading) (sunrise sunset : Int) : List Nat :=
  (List.range records.length).filter
    (fun i => sunrise < (records.getD i default).timestamp &&
              (records.getD i default).timestamp < sunset)

/-- Indices of the records falling in the night partition (the complement). -/
def nightIdxs (records : List TempReading) (sunrise sunset : Int) : List Nat :=
  (List.range records.length).filter
    (fun i => !(sunrise < (records.getD i default).timestamp &&
                (records.getD i default).timestamp < sunset))

/-- First-wins running minimum over record indices (`if not m or m.temperature
> r.temperature`). -/
def argminIdx (records : List TempReading) (idxs : List Nat) : Option Nat :=
  idxs.foldl
    (fun acc i => match acc with
      | none => some i
      | some j =>
          if (records.getD j default).temperature > (records.getD i default).temperature
          then some i else acc)
    none

/-- First-wins running maximum over record indices. -/
def argmaxIdx (records : List TempReading) (idxs : List Nat) : Option Nat :=
  idxs.foldl
    (fun acc i => match acc with
      | none => some i
      | some j =>
          if (records.getD j default).temperature < (records.getD i default).temperature
          then some i else acc)
    none

/-- `scipy.stats.tmean` without limits: the arithmetic mean, defined for a
non-empty index list. -/
def meanOver (records : List TempReading) (idxs : List Nat) : Option ℚ :=
  match idxs with
  | [] => none
  | _ => some ((idxs.map (fun i => (records.getD i default).temperature)).sum / idxs.length)

/-- The state produced by `TemperatureDailyChronology._init_raw`: the record
list as left after the boundary-synthesis heuristic (which assigns to the
`timestamp` attribute of records aliased from the input list), and the
memoized statistics as indices into that list (or means). -/
structure RawState where
  records : List TempReading
  minDailyIdx : Option Nat
  maxDailyIdx : Option Nat
  minDayIdx : Option Nat
  maxDayIdx : Option Nat
  minNightIdx : Option Nat
  maxNightIdx : Option Nat
  avgDaily : Option ℚ
  avgDay : Option ℚ
  avgNight : Option ℚ
deriving DecidableEq

/-- Overwrite the timestamp of the record at an index (the in-place
`record.timestamp = ...` assignment of the source). -/
def setTs (records : List TempReading) (i : Nat) (t : Int) : List TempReading :=
  records.set i { records.getD i default with timestamp := t }

/-- `TemperatureDailyChronology._init_raw`: scans the records, partitions them
into day and night by `sunrise < ts < sunset`, memoizes extrema and means,
then runs the boundary-synthesis heuristic, which mutates the timestamps of
the chosen records in place. -/
def initRaw (records : List TempReading) (theDate sunrise sunset : Int)
    (isForToday : Bool) : RawState :=
  let d := dayIdxs records sunrise sunset
  let nt := nightIdxs records sunrise sunset
  let minDaily := argminIdx records (List.range records.length)
  let maxDaily := argmaxIdx records (List.range records.length)
  let minDay0 := argminIdx records d
  let maxDay0 := argmaxIdx records d
  let minNight0 := argminIdx records nt
  let maxNight0 := argmaxIdx records nt
  let avgDaily := meanOver records (List.range records.length)
  let avgDay0 := meanOver records d
  let avgNight0 := meanOver records nt
  let i0 := d.headD 0
  let iL := d.getLastD 0
  let t0 := (records.getD i0 default).temperature
  let tL := (records.getD iL default).temperature
  -- synthesize a night minimum from the day partition
  let step1 :=
    if d ≠ [] ∧ minNight0 = none then
      let j := if t0 < tL then i0 else iL
      let ts1 := if t0 < tL then sunrise else sunset
      let ts2 := if isForToday ∧ ts1 > theDate then sunrise else ts1
      (setTs records j ts2, some j)
    else (records, minNight0)
  let recs1 := step1.1
  let minNight1 := step1.2
  -- synthesize a night maximum from the day partition
  let step2 :=
    if d ≠ [] ∧ maxNight0 = none then
      let j := if t0 > tL then i0 else iL
      let ts1 := if t0 > tL then sunrise else sunset
      let ts2 := if isForToday ∧ ts1 > theDate then sunrise else ts1
      (setTs recs1 j ts2, some j)
    else (recs1, maxNight0)
  let recs2 := step2.1
  let maxNight1 := step2.2
  let avgNight1 := if d ≠ [] ∧ avgNight0 = none then some ((t0 + tL) / 2) else avgNight0
  -- copy night statistics into empty day slots
  let cond := ¬isForToday ∨ theDate > sunrise
  let step3 :=
    if cond ∧ minNight1 ≠ none ∧ minDay0 = none then
      (setTs recs2 (minNight1.getD 0) sunset, minNight1)
    else (recs2, minDay0)
  let recs3 := step3.1
  let minDay1 := step3.2
  let step4 :=
    if cond ∧ maxNight1 ≠ none ∧ maxDay0 = none then
      (setTs recs3 (maxNight1.getD 0) sunset, maxNight1)
    else (recs3, maxDay0)
  let recs4 := step4.1
  let maxDay1 := step4.2
  let avgDay1 := if cond ∧ avgNight1 ≠ none ∧ avgDay0 = none then avgNight1 else avgDay0
  { records := recs4
    minDailyIdx := minDaily
    maxDailyIdx := maxDaily
    minDayIdx := minDay1
    maxDayIdx := maxDay1
    minNightIdx := minNight1
    maxNightIdx := maxNight1
    avgDaily := avgDaily
    avgDay := avgDay1
    avgNight := avgNight1 }

/-- A `(timestamp, temperature)` accessor pair read from an optional index
after `_init_raw` (the `(None, None)` shape of the source). -/
def statPair (s : RawState) (idx : Option Nat) : Option Int × Option ℚ :=
  match idx with
  | some i => (some (s.records.getD i default).timestamp,
               some (s.records.getD i default).temperature)
  | none => (none, none)

/-- `get_min_daily` after forcing `_init_raw`. -/
def getMinDaily (records : List TempReading) (theDate sunrise sunset : Int)
    (isForToday : Bool) : Option Int × Option ℚ :=
  let s := initRaw records theDate sunrise sunset isForToday
  statPair s s.minDailyIdx

/-- `get_max_daily` after forcing `_init_raw`. -/
def getMaxDaily (records : List TempReading) (theDate sunrise sunset : Int)
    (isForToday : Bool) : Option Int × Option ℚ :=
  let s := initRaw records theDate sunrise sunset isForToday
  statPair s s.maxDailyIdx

/-- `get_min_day` after forcing `_init_raw`. -/
def getMinDay (records : List TempReading) (theDate sunrise sunset : Int)
    (isForToday : Bool) : Option Int × Option ℚ :=
  let s := initRaw records theDate sunrise sunset isForToday
  statPair s s.minDayIdx

/-- `get_max_day` after forcing `_init_raw`. -/
def getMaxDay (records : List TempReading) (theDate sunrise sunset : Int)
    (isForToday : Bool) : Option Int × Option ℚ :=
  let s := initRaw records theDate sunrise sunset isForToday
  statPair s s.maxDayIdx

/-- `get_min_night` after forcing `_init_raw`. -/
def getMinNight (records : List TempReading) (theDate sunrise sunset : Int)
    (isForToday : Bool) : Option Int × Option ℚ :=
  let s := initRaw records theDate sunrise sunset isForToday
  statPair s s.minNightIdx

/-- `get_max_night` after forcing `_init_raw`. -/
def getMaxNight (records : List TempReading) (theDate sunrise sunset : Int)
    (isForToday : Bool) : Option Int × Option ℚ :=
  let s := initRaw records theDate sunrise sunset isForToday
  statPair s s.maxNightIdx

/-- `get_avg_daily` after forcing `_init_raw`. -/
def getAvgDaily (records : List TempReading) (theDate sunrise sunset : Int)
    (isForToday : Bool) : Option ℚ :=
  (initRaw records theDate sunrise sunset isForToday).avgDaily

/-- `get_avg_day` after forcing `_init_raw`. -/
def getAvgDay (records : List TempReading) (theDate sunrise sunset : Int)
    (isForToday : Bool) : Option ℚ :=
  (initRaw records theDate sunrise sunset isForToday).avgDay

/-- `get_avg_night` after forcing `_init_raw`. -/
def getAvgNight (records : List TempReading) (theDate sunrise sunset : Int)
    (isForToday : Bool) : Option ℚ :=
  (initRaw records theDate sunrise sunset isForToday).avgNight

/-- The linear function through `(x1, y1)` and `(x2, y2)` evaluated at `x`. -/
def lineValueAt (x1 y1 x2 y2 x : ℚ) : ℚ :=
  y1 + (x - x1) * ((y2 - y1) / (x2 - x1))

/-- Recursive form of the `[l[ib:ie] for ...]` slice family: each segment runs
from the previous cut (inclusive) to the next cut (exclusive). -/
def segsFrom (l : List α) (a : Nat) : List Nat → List (List α)
  | [] => [pySlice l a l.length]
  | c :: cs => pySlice l a c :: segsFrom l c cs

/-- Recursive form of the `[l[ib+1:ie] for ...]` slice families: each segment
runs from one past the previous cut to the next cut (exclusive). -/
def gapSlices (l : List α) (a : Nat) : List Nat → List (List α)
  | [] => [pySlice l a l.length]
  | c :: cs => pySlice l a c :: gapSlices l (c + 1) cs

/-- Bucket membership as described by the half-open-interval clustering rule:
bucket 0 holds values at most the first boundary, bucket `k` (`0 < k < m`)
holds values in `(b[k-1], b[k]]`, bucket `m` holds values above the last
boundary. -/
def inBucket (tops : List Int) (k : Nat) (v : Int) : Prop :=
  k ≤ tops.length ∧ (k = 0 ∨ tops.getD (k - 1) 0 < v) ∧
    (k = tops.length ∨ v ≤ tops.getD k 0)

section SliceLemmas

variable {α : Type _}

theorem pySlice_zero_length (l : List α) : pySlice l 0 l.length = l := by
  simp [pySlice]

theorem pySlice_succ_cons (x : α) (l : List α) (a b : Nat) :
    pySlice (x :: l) (a + 1) (b + 1) = pySlice l a b := by
  simp [pySlice, Nat.succ_sub_succ]

theorem pySlice_zero_succ (x : α) (l : List α) (b : Nat) :
    pySlice (x :: l) 0 (b + 1) = x :: pySlice l 0 b := by
  simp [pySlice]

theorem pySlice_append (l : List α) (a c b : Nat) (hac : a ≤ c) (hcb : c ≤ b) :
    pySlice l a c ++ pySlice l c b = pySlice l a b := by
  unfold pySlice
  have hd : l.drop c = (l.drop a).drop (c - a) := by
    rw [List.drop_drop]
    congr 1
    omega
  rw [hd, ← List.take_add]
  congr 1
  omega

theorem pySlice_length (l : List α) (a b : Nat) :
    (pySlice l a b).length = min (b - a) (l.length - a) := by
  simp [pySlice]

theorem codeSegs_zip_eq (l : List α) (a : Nat) (cs : List Nat) :
    (((a :: cs).zip (cs ++ [l.length])).map fun p => pySlice l p.1 p.2) =
      segsFrom l a cs := by
  induction cs generalizing a with
  | nil => simp [segsFrom]
  | cons c cs ih => simp [List.zip_cons_cons, segsFrom, ih]

theorem codeSegs_eq (l : List α) (cuts : List Nat) :
    codeSegs l cuts = segsFrom l 0 cuts := by
  simpa [codeSegs] using codeSegs_zip_eq l 0 cuts

theorem codeDropSegs_zip_eq (l : List α) (a : Nat) (cs : List Nat) :
    (((a :: cs).zip (cs ++ [l.length])).map fun p => pySlice l (p.1 + 1) p.2) =
      gapSlices l (a + 1) cs := by
  induction cs generalizing a with
  | nil => simp [gapSlices]
  | cons c cs ih => simp [List.zip_cons_cons, gapSlices, ih]

theorem codeDropSegs_eq (l : List α) (cuts : List Nat) :
    codeDropSegs l cuts = gapSlices l 1 cuts := by
  simpa [codeDropSegs] using codeDropSegs_zip_eq l 0 cuts

theorem codeDropSegsZ_zip_eq (l : List α) (a : Nat) (cs : List Nat) :
    (((Int.ofNat a :: cs.map Int.ofNat).zip (cs.map Int.ofNat ++ [(l.length : Int)])).map
        fun p => pySlice l (p.1 + 1).toNat p.2.toNat) =
      gapSlices l (a + 1) cs := by
  induction cs generalizing a with
  | nil => simp [gapSlices]
  | cons c cs ih =>
      simp only [List.map_cons, List.cons_append, List.zip_cons_cons, List.map_cons]
      rw [ih]
      simp [gapSlices]

theorem codeDropSegsZ_eq (l : List α) (cuts : List Nat) :
    codeDropSegsZ l cuts = gapSlices l 0 cuts := by
  cases cuts with
  | nil => simp [codeDropSegsZ, gapSlices]
  | cons c cs =>
      unfold codeDropSegsZ
      simp only [List.map_cons, List.cons_append, List.zip_cons_cons, List.map_cons]
      rw [codeDropSegsZ_zip_eq]
      simp [gapSlices]

end SliceLemmas

section SegmentLemmas

variable {α : Type _}

theorem segsFrom_flatten (l : List α) (cs : List Nat) (a : Nat)
    (hchain : List.Chain' (· ≤ ·) (a :: cs)) (hbound : ∀ c ∈ cs, c ≤ l.length) :
    (segsFrom l a cs).flatten = pySlice l a l.length := by
  induction cs generalizing a with
  | nil => simp [segsFrom]
  | cons c cs ih =>
      have hac : a ≤ c := (List.chain'_cons.mp hchain).1
      have hcl : c ≤ l.length := hbound c (by simp)
      simp only [segsFrom, List.flatten_cons]
      rw [ih c (List.chain'_cons.mp hchain).2 (fun x hx => hbound x (by simp [hx]))]
      exact pySlice_append l a c l.length hac hcl

theorem segsFrom_map_length (l l' : List α) (a : Nat) (cs : List Nat)
    (hlen : l.length = l'.length) :
    (segsFrom l a cs).map List.length = (segsFrom l' a cs).map List.length := by
  induction cs generalizing a with
  | nil => simp [segsFrom, pySlice_length, hlen]
  | cons c cs ih => simp [segsFrom, pySlice_length, hlen, ih]

theorem removalIdxs_nil : removalIdxs [] = [] := rfl

theorem removalIdxs_cons (d : Int) (ds : List Int) :
    removalIdxs (d :: ds) =
      (if d < 0 then [0] else []) ++ (removalIdxs ds).map (· + 1) := by
  unfold removalIdxs
  rw [List.length_cons, List.range_succ_eq_map, List.zip_cons_cons,
    List.filterMap_cons, List.zip_map_left, List.filterMap_map]
  by_cases hd : d < 0 <;>
    simp [hd, List.map_filterMap, Function.comp_def, Nat.succ_eq_add_one,
      apply_ite (Option.map (· + 1))]

theorem mem_removalIdxs (ds : List Int) (j : Nat) (hj : j < ds.length)
    (hneg : ds[j] < 0) : j ∈ removalIdxs ds := by
  induction ds generalizing j with
  | nil => simp at hj
  | cons d ds ih =>
      rw [removalIdxs_cons]
      cases j with
      | zero =>
          simp only [List.getElem_cons_zero] at hneg
          simp [hneg]
      | succ j =>
          simp only [List.getElem_cons_succ] at hneg
          have := ih j (by simpa using hj) hneg
          simp only [List.mem_append, List.mem_map]
          exact Or.inr ⟨j, this, rfl⟩

theorem removalIdxs_sorted (ds : List Int) : (removalIdxs ds).Pairwise (· < ·) := by
  induction ds with
  | nil => simp [removalIdxs_nil]
  | cons d ds ih =>
      rw [removalIdxs_cons]
      refine List.pairwise_append.mpr ⟨?_, ?_, ?_⟩
      · by_cases hd : d < 0 <;> simp [hd]
      · exact (List.pairwise_map).mpr (ih.imp (by omega))
      · intro x hx y hy
        have hx0 : x = 0 := by
          by_cases hd : d < 0 <;> simp [hd] at hx
          exact hx
        obtain ⟨z, hz, rfl⟩ := List.mem_map.mp hy
        omega

theorem removalIdxs_lt_length (ds : List Int) : ∀ i ∈ removalIdxs ds, i < ds.length := by
  induction ds with
  | nil => simp [removalIdxs_nil]
  | cons d ds ih =>
      rw [removalIdxs_cons]
      intro i hi
      rcases List.mem_append.mp hi with h | h
      · have : i = 0 := by
          by_cases hd : d < 0 <;> simp [hd] at h
          exact h
        simp [this]
      · obtain ⟨z, hz, rfl⟩ := List.mem_map.mp h
        have := ih z hz
        simp
        omega

end SegmentLemmas

section SpecSplitBridge

variable {α : Type _}

theorem segsFrom_shift (x : α) (l : List α) (cs : List Nat) (a : Nat) :
    segsFrom (x :: l) (a + 1) (cs.map (· + 1)) = segsFrom l a cs := by
  induction cs generalizing a with
  | nil => simp [segsFrom, pySlice_succ_cons]
  | cons c cs ih => simp [segsFrom, pySlice_succ_cons, ih]

theorem segsFrom_cons_shift (x : α) (t : List α) (cuts : List Nat) :
    segsFrom (x :: t) 0 (cuts.map (· + 1)) =
      (x :: (segsFrom t 0 cuts).headD []) :: (segsFrom t 0 cuts).tail := by
  cases cuts with
  | nil => simp [segsFrom, pySlice]
  | cons c cs =>
      simp only [List.map_cons, segsFrom, pySlice_zero_succ, List.headD_cons, List.tail_cons]
      rw [segsFrom_shift x t cs c]

theorem deltasOf_cons_cons (x y : Int) (rest : List Int) :
    deltasOf (x :: y :: rest) = (x - y) :: deltasOf (y :: rest) := rfl

theorem specSplit_ne_nil (l : List Int) : specSplit l ≠ [] := by
  match l with
  | [] => simp [specSplit]
  | [x] => simp [specSplit]
  | x :: y :: rest =>
      simp only [specSplit]
      rcases h : specSplit (y :: rest) with _ | ⟨s, ss⟩
      · simp
      · by_cases hneg : x - y < 0 <;> simp [hneg]

theorem codeSegs_eq_specSplit (l : List Int) :
    codeSegs l ((removalIdxs (deltasOf l)).map (· + 1)) = specSplit l := by
  match l with
  | [] => rfl
  | [x] => rfl
  | x :: y :: rest =>
      have ih := codeSegs_eq_specSplit (y :: rest)
      rw [codeSegs_eq] at ih ⊢
      rw [deltasOf_cons_cons, removalIdxs_cons]
      by_cases hneg : x - y < 0
      · simp only [hneg, if_pos, List.singleton_append, List.map_cons, List.map_map]
        simp only [segsFrom]
        have h1 : pySlice (x :: y :: rest) 0 1 = [x] := rfl
        rw [h1]
        have hmapeq : (removalIdxs (deltasOf (y :: rest))).map ((· + 1) ∘ (· + 1)) =
            ((removalIdxs (deltasOf (y :: rest))).map (· + 1)).map (· + 1) := by
          simp [List.map_map]
        rw [hmapeq, show (1 : Nat) = 0 + 1 by omega,
          segsFrom_shift x (y :: rest) ((removalIdxs (deltasOf (y :: rest))).map (· + 1)) 0, ih]
        simp only [specSplit]
        rcases hs : specSplit (y :: rest) with _ | ⟨s, ss⟩
        · exact absurd hs (specSplit_ne_nil (y :: rest))
        · simp [hneg]
      · simp only [hneg, if_neg, not_false_iff, List.nil_append, List.map_map]
        have hmapeq : (removalIdxs (deltasOf (y :: rest))).map ((· + 1) ∘ (· + 1)) =
            (((removalIdxs (deltasOf (y :: rest))).map (· + 1)).map (· + 1)) := by
          simp [List.map_map]
        rw [hmapeq, segsFrom_cons_shift x (y :: rest), ih]
        simp only [specSplit]
        rcases hs : specSplit (y :: rest) with _ | ⟨s, ss⟩
        · exact absurd hs (specSplit_ne_nil (y :: rest))
        · simp [hneg]

end SpecSplitBridge

section FlattenLemmas

theorem deltasOf_length (l : List Int) : (deltasOf l).length = l.length - 1 := by
  simp only [deltasOf, List.length_zipWith, List.length_tail]
  omega

theorem codeSegs_flatten (l : List Int) (cuts : List Nat)
    (hpw : cuts.Pairwise (· < ·)) (hb : ∀ c ∈ cuts, c ≤ l.length) :
    (codeSegs l cuts).flatten = l := by
  rw [codeSegs_eq]
  rw [segsFrom_flatten l cuts 0 ?_ hb, pySlice_zero_length]
  exact List.Pairwise.chain'
    (List.pairwise_cons.mpr ⟨fun c _ => Nat.zero_le c, hpw.imp Nat.le_of_lt⟩)

theorem removal_cuts_pairwise (ds : List Int) :
    ((removalIdxs ds).map (· + 1)).Pairwise (· < ·) :=
  (List.pairwise_map).mpr ((removalIdxs_sorted ds).imp (by omega))

theorem removal_cuts_le (l : List Int) :
    ∀ c ∈ (removalIdxs (deltasOf l)).map (· + 1), c ≤ l.length := by
  intro c hc
  obtain ⟨i, hi, rfl⟩ := List.mem_map.mp hc
  have h1 := removalIdxs_lt_length (deltasOf l) i hi
  have h2 := deltasOf_length l
  omega

theorem splicedTimeline_length (records : List TankLevel) (p n : Option TankLevel)
    (f : Int) :
    (splicedTimeline records p n).length = (splicedLevels records p n f).length := by
  cases p <;> cases n <;> cases records <;>
    simp [splicedTimeline, splicedLevels]

end FlattenLemmas

/-- C1 counterexample: the adherent-previous record's level 400 is below
`tank_full_mm = 500` and yet appears unclamped in `get_continuous_levels`. -/
theorem claim_C1_cex :
    (mkCesspitHistory [⟨3600000000, 800⟩] (some ⟨0, 400⟩) none 500 1000).continuousLevels
        = [[400], [800]] ∧ (400 : Int) < 500 := by
  constructor
  · rfl
  · decide

/-- C1 (amended): only the window readings' levels are clamped to
`max(L, tank_full_mm)`; equivalently, every level of the spliced sequence that
comes from the window is at least `tank_full_mm`, and with no adherent records
no level below `tank_full_mm` appears in `get_continuous_levels`. Adherent
records are spliced verbatim, without clamping. -/
theorem claim_C1 (records : List TankLevel) (f e : Int) :
    (∀ x ∈ splicedLevels records none none f, f ≤ x) ∧
    (∀ seg ∈ (mkCesspitHistory records none none f e).continuousLevels,
      ∀ x ∈ seg, f ≤ x) := by
  have hbase : ∀ x ∈ splicedLevels records none none f, f ≤ x := by
    intro x hx
    simp only [splicedLevels, List.mem_map] at hx
    obtain ⟨r, _, rfl⟩ := hx
    by_cases h : r.level > f
    · simp only [h, if_pos]
      omega
    · simp [h]
  refine ⟨hbase, ?_⟩
  intro seg hseg x hx
  have hflat : x ∈ ((mkCesspitHistory records none none f e).continuousLevels).flatten :=
    List.mem_flatten.mpr ⟨seg, hseg, hx⟩
  have heq : ((mkCesspitHistory records none none f e).continuousLevels).flatten =
      splicedLevels records none none f := by
    apply codeSegs_flatten
    · exact removal_cuts_pairwise _
    · exact removal_cuts_le _
  rw [heq] at hflat
  exact hbase x hflat

/-- C1 witness: the amended clamping statement applied to a concrete window. -/
theorem claim_C1_witness :
    (800 : Int) ∈ splicedLevels [⟨0, 800⟩] none none 500 ∧ (500 : Int) ≤ 800 :=
  ⟨by decide, (claim_C1 [⟨0, 800⟩] 500 1000).1 800 (by decide)⟩

/-- C2: the continuous-level segments computed through the removal-index
slicing are exactly the split of the spliced level sequence at the indices of
negative deltas into maximal contiguous runs (`specSplit`); the timeline is
split at the same positions (same segment shapes, nothing dropped), and the
concrete example `[800, 750, 700, 950, 900]` with full=500 produces exactly
the two runs `[800, 750, 700]` and `[950, 900]`. -/
theorem claim_C2 (records : List TankLevel) (p n : Option TankLevel) (f e : Int) :
    (mkCesspitHistory records p n f e).continuousLevels =
        specSplit (splicedLevels records p n f) ∧
    ((mkCesspitHistory records p n f e).continuousTimelines).flatten =
        (mkCesspitHistory records p n f e).timeline ∧
    ((mkCesspitHistory records p n f e).continuousTimelines).map List.length =
        ((mkCesspitHistory records p n f e).continuousLevels).map List.length ∧
    (mkCesspitHistory
        [⟨0, 800⟩, ⟨3600000000, 750⟩, ⟨7200000000, 700⟩,
         ⟨10800000000, 950⟩, ⟨14400000000, 900⟩] none none 500 1000).continuousLevels =
      [[800, 750, 700], [950, 900]] := by
  refine ⟨codeSegs_eq_specSplit _, ?_, ?_, by rfl⟩
  · apply codeSegs_flatten
    · exact removal_cuts_pairwise _
    · intro c hc
      have := removal_cuts_le (splicedLevels records p n f) c hc
      rw [splicedTimeline_length records p n f]
      exact this
  · show (codeSegs (splicedTimeline records p n) _).map List.length =
      (codeSegs (splicedLevels records p n f) _).map List.length
    rw [codeSegs_eq, codeSegs_eq]
    exact segsFrom_map_length _ _ 0 _ (splicedTimeline_length records p n f)

/-- C7 counterexample: an empty window with an adherent-previous record makes
`is_valid()` return true even though the window's reading list is empty. -/
theorem claim_C7_cex :
    cesspitIsValid (mkCesspitHistory [] (some ⟨0, 800⟩) none 500 1000) = true := by
  rfl

/-- C7 (amended): `is_valid()` returns true iff the spliced record list
(window records plus any adherent records) is non-empty and
`tank_full_mm < tank_empty_mm` (the calibration constants are integers here,
hence always present). -/
theorem claim_C7 (records : List TankLevel) (p n : Option TankLevel) (f e : Int) :
    cesspitIsValid (mkCesspitHistory records p n f e) = true ↔
      (splicedRecords records p n ≠ [] ∧ f < e) := by
  show (decide (0 < (splicedRecords records p n).length) && decide (f < e)) = true ↔ _
  rw [Bool.and_eq_true, decide_eq_true_iff, decide_eq_true_iff]
  constructor
  · rintro ⟨h1, h2⟩
    exact ⟨List.ne_nil_of_length_pos h1, h2⟩
  · rintro ⟨h1, h2⟩
    exact ⟨List.length_pos.mpr h1, h2⟩

section NonnegDeltas

theorem mem_pySlice {α : Type _} (l : List α) (a b : Nat) (x : α)
    (hx : x ∈ pySlice l a b) :
    ∃ j, a ≤ j ∧ j < b ∧ ∃ hj : j < l.length, l[j] = x := by
  unfold pySlice at hx
  obtain ⟨k, hk, hget⟩ := List.getElem_of_mem hx
  have hk2 : k < b - a ∧ k < l.length - a := by
    rw [List.length_take, List.length_drop] at hk
    omega
  rw [List.getElem_take, List.getElem_drop] at hget
  exact ⟨a + k, by omega, by omega, by omega, hget⟩

theorem gapSlices_flatten_nonneg (ds : List Int) (cs : List Nat) (a : Nat)
    (hcomp : ∀ j, ∀ hj : j < ds.length, a ≤ j → ds[j] < 0 → j ∈ cs)
    (hsort : cs.Pairwise (· < ·)) (hlow : ∀ c ∈ cs, a ≤ c) :
    ∀ x ∈ (gapSlices ds a cs).flatten, 0 ≤ x := by
  induction cs generalizing a with
  | nil =>
      intro x hx
      simp only [gapSlices, List.flatten_cons, List.flatten_nil, List.append_nil] at hx
      obtain ⟨j, hja, _, hj, rfl⟩ := mem_pySlice ds a ds.length x hx
      by_contra hneg
      exact absurd (hcomp j hj hja (by omega)) (List.not_mem_nil j)
  | cons c cs ih =>
      intro x hx
      simp only [gapSlices, List.flatten_cons, List.mem_append] at hx
      rcases hx with hx | hx
      · obtain ⟨j, hja, hjc, hj, rfl⟩ := mem_pySlice ds a c x hx
        by_contra hneg
        have hmem := hcomp j hj hja (by omega)
        rcases List.mem_cons.mp hmem with rfl | hmem
        · omega
        · have := (List.pairwise_cons.mp hsort).1 j hmem
          omega
      · refine ih (c + 1) ?_ (List.pairwise_cons.mp hsort).2 ?_ x hx
        · intro j hj hcj hneg
          have haj : a ≤ j := le_trans (hlow c (by simp)) (by omega)
          rcases List.mem_cons.mp (hcomp j hj haj hneg) with rfl | hmem
          · omega
          · exact hmem
        · intro d hd
          have := (List.pairwise_cons.mp hsort).1 d hd
          omega

theorem cesspit_deltas_mem_nonneg (records : List TankLevel) (p n : Option TankLevel)
    (f e : Int) :
    ∀ x ∈ (mkCesspitHistory records p n f e).deltas, 0 ≤ x := by
  intro x hx
  have heq : (mkCesspitHistory records p n f e).deltas =
      (gapSlices (deltasOf (splicedLevels records p n f)) 0
        (removalIdxs (deltasOf (splicedLevels records p n f)))).flatten := by
    show (codeDropSegsZ _ _).flatten = _
    rw [codeDropSegsZ_eq]
  rw [heq] at hx
  refine gapSlices_flatten_nonneg _ _ 0 ?_ (removalIdxs_sorted _) (fun c _ => Nat.zero_le c) x hx
  intro j hj _ hneg
  exact mem_removalIdxs _ j hj hneg

theorem clusterBuckets_foldl_mem (P : Int → Prop) (tops : List Int)
    (objs : List (Int × Int)) (acc : List (List Int))
    (hacc : ∀ b ∈ acc, ∀ x ∈ b, P x) (hobj : ∀ o ∈ objs, P o.2) :
    ∀ b ∈ objs.foldl
        (fun acc0 tv =>
          match findFirstMatch (clusterDefs tops) tv.1 with
          | some i => insertAt acc0 i tv.2
          | none => acc0)
        acc,
      ∀ x ∈ b, P x := by
  induction objs generalizing acc with
  | nil => simpa using hacc
  | cons o os ih =>
      simp only [List.foldl_cons]
      refine ih _ ?_ (fun q hq => hobj q (List.mem_cons_of_mem o hq))
      rcases hcase : findFirstMatch (clusterDefs tops) o.1 with _ | i
      · exact hacc
      · intro b hb x hxb
        rcases List.mem_or_eq_of_mem_set hb with hb2 | rfl
        · exact hacc b hb2 x hxb
        · rcases List.mem_append.mp hxb with hx2 | hx2
          · rcases Nat.lt_or_ge i acc.length with hlen | hlen
            · have : acc.getD i [] = acc[i] := List.getD_eq_getElem acc [] hlen
              rw [this] at hx2
              exact hacc _ (List.getElem_mem hlen) x hx2
            · rw [List.getD_eq_default acc [] hlen] at hx2
              simp at hx2
          · have : x = o.2 := by simpa using hx2
            rw [this]
            exact hobj o (by simp)

theorem mem_clusterBuckets (P : Int → Prop) (tops : List Int) (objs : List (Int × Int))
    (hobj : ∀ o ∈ objs, P o.2) :
    ∀ b ∈ clusterBuckets tops objs, ∀ x ∈ b, P x := by
  refine clusterBuckets_foldl_mem P tops objs _ ?_ hobj
  intro b hb x hxb
  rw [List.eq_of_mem_replicate hb] at hxb
  simp at hxb

theorem sumInt_foldl_nonneg (l : List Int) (a : Int) (ha : 0 ≤ a)
    (h : ∀ x ∈ l, 0 ≤ x) : 0 ≤ l.foldl (· + ·) a := by
  induction l generalizing a with
  | nil => simpa
  | cons x xs ih =>
      simp only [List.foldl_cons]
      refine ih (a + x) ?_ (fun y hy => h y (by simp [hy]))
      have := h x (by simp)
      omega

theorem sumInt_nonneg (l : List Int) (h : ∀ x ∈ l, 0 ≤ x) : 0 ≤ sumInt l :=
  sumInt_foldl_nonneg l 0 le_rfl h

end NonnegDeltas

/-- C10: every retained delta is non-negative, and consequently every value of
`get_per_hour_deltas`, `get_per_day_deltas` and both percentage views is
non-negative (the percentages additionally need the valid calibration
`tank_full_mm < tank_empty_mm`). -/
theorem claim_C10 (records : List TankLevel) (p n : Option TankLevel) (f e : Int)
    (hfe : f < e) :
    (∀ d ∈ (mkCesspitHistory records p n f e).deltas, 0 ≤ d) ∧
    (∀ v ∈ cesspitPhDeltas (mkCesspitHistory records p n f e), 0 ≤ v) ∧
    (∀ v ∈ cesspitPdDeltas (mkCesspitHistory records p n f e), 0 ≤ v) ∧
    (∀ q ∈ cesspitPhDeltasPerc (mkCesspitHistory records p n f e), 0 ≤ q) ∧
    (∀ q ∈ cesspitPdDeltasPerc (mkCesspitHistory records p n f e), 0 ≤ q) := by
  set h := mkCesspitHistory records p n f e with hdef
  have hds : ∀ d ∈ h.deltas, 0 ≤ d := cesspit_deltas_mem_nonneg records p n f e
  have hzip : ∀ o ∈ h.deltasTimeline.zip h.deltas, 0 ≤ o.2 := by
    intro o ho
    exact hds o.2 (List.of_mem_zip ho).2
  have hph : ∀ v ∈ cesspitPhDeltas h, 0 ≤ v := by
    intro v hv
    obtain ⟨b, hb, rfl⟩ := List.mem_map.mp hv
    exact sumInt_nonneg b (mem_clusterBuckets (0 ≤ ·) _ _ hzip b hb)
  have hpd : ∀ v ∈ cesspitPdDeltas h, 0 ≤ v := by
    intro v hv
    obtain ⟨b, hb, rfl⟩ := List.mem_map.mp hv
    exact sumInt_nonneg b (mem_clusterBuckets (0 ≤ ·) _ _ hzip b hb)
  have hden : (0 : ℚ) ≤ (e : ℚ) - (f : ℚ) := by
    have : (f : ℚ) < (e : ℚ) := by exact_mod_cast hfe
    linarith
  have hperc : ∀ d : Int, 0 ≤ d → 0 ≤ 100 * (d : ℚ) / ((e : ℚ) - (f : ℚ)) := by
    intro d hd
    apply div_nonneg _ hden
    have : (0 : ℚ) ≤ (d : ℚ) := by exact_mod_cast hd
    linarith
  refine ⟨hds, hph, hpd, ?_, ?_⟩
  · intro q hq
    unfold cesspitPhDeltasPerc at hq
    obtain ⟨d, hd, rfl⟩ := List.mem_map.mp hq
    exact hperc d (hph d hd)
  · intro q hq
    unfold cesspitPdDeltasPerc at hq
    obtain ⟨d, hd, rfl⟩ := List.mem_map.mp hq
    exact hperc d (hpd d hd)

/-- C10 witness: the non-negativity statement applied to a concrete history. -/
theorem claim_C10_witness :
    (500 : Int) < 1000 ∧
    (50 : Int) ∈ (mkCesspitHistory
        [⟨0, 800⟩, ⟨3600000000, 750⟩, ⟨7200000000, 700⟩,
         ⟨10800000000, 950⟩, ⟨14400000000, 900⟩] none none 500 1000).deltas ∧
    (0 : Int) ≤ 50 :=
  ⟨by decide, by decide,
    (claim_C10 [⟨0, 800⟩, ⟨3600000000, 750⟩, ⟨7200000000, 700⟩,
      ⟨10800000000, 950⟩, ⟨14400000000, 900⟩] none none 500 1000 (by decide)).1
      50 (by decide)⟩

section Clustering

theorem sumInt_eq_sum (l : List Int) : sumInt l = l.sum :=
  (List.sum_eq_foldl).symm

theorem findFirst_zip_aux (v : Int) (ts : List Int) (lo : Option Int)
    (hlo : ∀ l, lo = some l → l < v) (hs : ts.Pairwise (· ≤ ·)) :
    findFirstMatch ((lo :: ts.map some).zip (ts.map some ++ [none])) v =
      some (ts.countP (fun t => decide (t < v))) := by
  induction ts generalizing lo with
  | nil =>
      have hmatch : bucketMatch lo none v = true := by
        rcases lo with _ | l
        · rfl
        · simp [bucketMatch, hlo l rfl]
      simp [findFirstMatch, hmatch]
  | cons t ts ih =>
      have hbm : bucketMatch lo (some t) v = decide (v ≤ t) := by
        rcases lo with _ | l
        · simp [bucketMatch]
        · simp [bucketMatch, hlo l rfl]
      have hzip : ((lo :: (t :: ts).map some).zip ((t :: ts).map some ++ [none])) =
          (lo, some t) :: ((some t :: ts.map some).zip (ts.map some ++ [none])) := by
        rw [List.map_cons, List.cons_append, List.zip_cons_cons]
      rw [hzip]
      show (if bucketMatch lo (some t) v = true then some 0
            else (findFirstMatch ((some t :: ts.map some).zip (ts.map some ++ [none]))
              v).map (· + 1)) = _
      rw [hbm]
      by_cases hvt : v ≤ t
      · rw [if_pos (by simp [hvt])]
        have hnlt : ¬ t < v := by omega
        have hzero : ts.countP (fun u => decide (u < v)) = 0 :=
          List.countP_eq_zero.mpr (fun u hu => by
            have := (List.pairwise_cons.mp hs).1 u hu
            simp only [decide_eq_true_eq]
            omega)
        simp [List.countP_cons, hzero, hnlt]
      · rw [if_neg (by simp [hvt])]
        rw [ih (some t) (fun l hl => by injection hl with h2; omega)
          (List.pairwise_cons.mp hs).2]
        have hlt : t < v := by omega
        simp [List.countP_cons, hlt]

theorem findFirst_clusterDefs (tops : List Int) (v : Int)
    (hs : tops.Pairwise (· ≤ ·)) :
    findFirstMatch (clusterDefs tops) v =
      some (tops.countP (fun t => decide (t < v))) :=
  findFirst_zip_aux v tops none (fun _ h => by simp at h) hs

theorem sorted_getD_lt_iff (tops : List Int) (hs : tops.Pairwise (· ≤ ·)) (v : Int) :
    ∀ i, i < tops.length →
      (tops.getD i 0 < v ↔ i < tops.countP (fun t => decide (t < v))) := by
  induction tops with
  | nil => intro i hi; simp at hi
  | cons t ts ih =>
      intro i hi
      have hhead := (List.pairwise_cons.mp hs).1
      have htail := (List.pairwise_cons.mp hs).2
      cases i with
      | zero =>
          rw [List.getD_cons_zero, List.countP_cons]
          by_cases htv : t < v
          · simp [htv]
          · have hzero : ts.countP (fun u => decide (u < v)) = 0 :=
              List.countP_eq_zero.mpr (fun u hu => by
                have := hhead u hu
                simp only [decide_eq_true_eq]
                omega)
            simp [htv, hzero]
      | succ i =>
          rw [List.getD_cons_succ, List.countP_cons]
          have hlen : i < ts.length := by simpa using hi
          by_cases htv : t < v
          · rw [ih htail i hlen]
            simp [htv]
          · have hzero : ts.countP (fun u => decide (u < v)) = 0 :=
              List.countP_eq_zero.mpr (fun u hu => by
                have := hhead u hu
                simp only [decide_eq_true_eq]
                omega)
            have hge : v ≤ ts.getD i 0 := by
              have hmem : ts.getD i 0 ∈ ts := by
                rw [List.getD_eq_getElem ts 0 hlen]
                exact List.getElem_mem hlen
              have := hhead _ hmem
              omega
            rw [hzero]
            constructor
            · intro hlt
              exact absurd hlt (not_lt.mpr hge)
            · intro hlt
              simp [htv] at hlt

theorem inBucket_countP (tops : List Int) (v : Int) (hs : tops.Pairwise (· ≤ ·)) :
    inBucket tops (tops.countP (fun t => decide (t < v))) v := by
  set c := tops.countP (fun t => decide (t < v)) with hc
  have hcle : c ≤ tops.length := List.countP_le_length _
  refine ⟨hcle, ?_, ?_⟩
  · rcases Nat.eq_zero_or_pos c with h0 | hpos
    · exact Or.inl h0
    · refine Or.inr ?_
      have h1 : c - 1 < tops.length := by omega
      rw [sorted_getD_lt_iff tops hs v (c - 1) h1, ← hc]
      omega
  · rcases Nat.lt_or_ge c tops.length with hlt | hge
    · refine Or.inr ?_
      have h2 := sorted_getD_lt_iff tops hs v c hlt
      rw [← hc] at h2
      have h3 : ¬ tops.getD c 0 < v := by
        rw [h2]
        omega
      omega
    · exact Or.inl (by omega)

theorem inBucket_unique (tops : List Int) (v : Int) (k : Nat)
    (hs : tops.Pairwise (· ≤ ·)) (hk : inBucket tops k v) :
    k = tops.countP (fun t => decide (t < v)) := by
  obtain ⟨hkle, hlow, hhigh⟩ := hk
  set c := tops.countP (fun t => decide (t < v)) with hc
  have hcle : c ≤ tops.length := List.countP_le_length _
  rcases Nat.lt_trichotomy k c with hlt | heq | hgt
  · exfalso
    have hklen : k < tops.length := by omega
    have hkv : tops.getD k 0 < v := by
      rw [sorted_getD_lt_iff tops hs v k hklen, ← hc]
      omega
    rcases hhigh with h | h
    · omega
    · omega
  · exact heq
  · exfalso
    have hk1 : k - 1 < tops.length := by omega
    have hnot : ¬ tops.getD (k - 1) 0 < v := by
      rw [sorted_getD_lt_iff tops hs v (k - 1) hk1, ← hc]
      omega
    rcases hlow with h | h
    · omega
    · omega

theorem insertAt_map_sum (bl : List (List Int)) (i : Nat) (v : Int)
    (hi : i < bl.length) :
    ((insertAt bl i v).map sumInt).sum = (bl.map sumInt).sum + v := by
  induction bl generalizing i with
  | nil => simp at hi
  | cons b bs ih =>
      cases i with
      | zero =>
          simp only [insertAt, List.set_cons_zero, List.getD_cons_zero, List.map_cons,
            List.sum_cons]
          rw [sumInt_eq_sum, sumInt_eq_sum, List.sum_append]
          simp
          ring
      | succ i =>
          have hlen : i < bs.length := by simpa using hi
          simp only [insertAt, List.set_cons_succ, List.getD_cons_succ, List.map_cons,
            List.sum_cons]
          have hrec := ih i hlen
          simp only [insertAt] at hrec
          rw [hrec]
          ring

theorem insertAt_length (bl : List (List Int)) (i : Nat) (v : Int) :
    (insertAt bl i v).length = bl.length := by
  simp [insertAt]

theorem clusterTotal_aux (tops : List Int) (hs : tops.Pairwise (· ≤ ·))
    (objs : List (Int × Int)) :
    ∀ acc : List (List Int), acc.length = tops.length + 1 →
      ((objs.foldl
          (fun acc0 tv =>
            match findFirstMatch (clusterDefs tops) tv.1 with
            | some i => insertAt acc0 i tv.2
            | none => acc0)
          acc).map sumInt).sum = (acc.map sumInt).sum + (objs.map Prod.snd).sum := by
  induction objs with
  | nil => intro acc _; simp
  | cons o os ih =>
      intro acc hacc
      simp only [List.foldl_cons]
      rw [findFirst_clusterDefs tops o.1 hs]
      have hklt : (tops.countP fun t => decide (t < o.1)) < acc.length := by
        have := List.countP_le_length (l := tops) (fun t => decide (t < o.1))
        omega
      rw [ih _ (by rw [insertAt_length]; exact hacc),
        insertAt_map_sum acc _ o.2 hklt]
      simp only [List.map_cons, List.sum_cons]
      ring

theorem clusterBuckets_total (tops : List Int) (objs : List (Int × Int))
    (hs : tops.Pairwise (· ≤ ·)) :
    ((clusterBuckets tops objs).map sumInt).sum = (objs.map Prod.snd).sum := by
  unfold clusterBuckets
  rw [clusterTotal_aux tops hs objs (List.replicate (tops.length + 1) [])
    (by simp)]
  simp [sumInt]

theorem range_map_affine_pairwise (s c : Int) (hc : 0 < c) (cnt : Nat) :
    ((List.range cnt).map (fun k : Nat => s + c * (k : Int))).Pairwise (· < ·) := by
  refine List.pairwise_map.mpr ((List.pairwise_lt_range cnt).imp ?_)
  intro a b hab
  have hcast : (a : Int) < b := by exact_mod_cast hab
  have := mul_lt_mul_of_pos_left hcast hc
  omega

theorem cesspitPhTimeline_pairwise (h : CesspitHistory) :
    (cesspitPhTimeline h).Pairwise (· < ·) := by
  unfold cesspitPhTimeline
  cases h.records.head? with
  | none => simp
  | some f =>
      cases h.records.getLast? with
      | none => simp
      | some l => exact range_map_affine_pairwise _ usPerHour (by decide) _

theorem cesspitPdTimeline_pairwise (h : CesspitHistory) :
    (cesspitPdTimeline h).Pairwise (· < ·) := by
  unfold cesspitPdTimeline
  cases h.records.head? with
  | none => simp
  | some f =>
      cases h.records.getLast? with
      | none => simp
      | some l => exact range_map_affine_pairwise _ usPerDay (by decide) _

end Clustering

section Conservation

theorem gapSlices_flatten_length {α : Type _} (l : List α) (cs : List Nat) (a : Nat)
    (hpw : cs.Pairwise (· < ·)) (hb : ∀ c ∈ cs, a ≤ c ∧ c < l.length)
    (ha : a ≤ l.length) :
    (gapSlices l a cs).flatten.length + cs.length + a = l.length := by
  induction cs generalizing a with
  | nil =>
      simp only [gapSlices, List.flatten_cons, List.flatten_nil, List.append_nil,
        pySlice_length, List.length_nil, Nat.min_self]
      omega
  | cons c cs ih =>
      have hc := hb c (by simp)
      have hrec := ih (c + 1) (List.Pairwise.tail hpw)
        (fun d hd => ⟨by have := (List.pairwise_cons.mp hpw).1 d hd; omega,
          (hb d (by simp [hd])).2⟩)
        (by omega)
      simp only [gapSlices, List.flatten_cons, List.length_append, pySlice_length]
      simp only [List.length_cons] at hrec ⊢
      omega

theorem splicedLevels_length (records : List TankLevel) (p n : Option TankLevel)
    (f : Int) :
    (splicedLevels records p n f).length = (splicedRecords records p n).length := by
  cases p <;> cases n <;> simp [splicedLevels, splicedRecords]

theorem cesspit_deltas_length (records : List TankLevel) (p n : Option TankLevel)
    (f e : Int) :
    ((mkCesspitHistory records p n f e).deltas).length + 
      (removalIdxs (deltasOf (splicedLevels records p n f))).length =
      (deltasOf (splicedLevels records p n f)).length := by
  have heq : (mkCesspitHistory records p n f e).deltas =
      (gapSlices (deltasOf (splicedLevels records p n f)) 0
        (removalIdxs (deltasOf (splicedLevels records p n f)))).flatten := by
    show (codeDropSegsZ _ _).flatten = _
    rw [codeDropSegsZ_eq]
  rw [heq]
  have := gapSlices_flatten_length (deltasOf (splicedLevels records p n f))
    (removalIdxs (deltasOf (splicedLevels records p n f))) 0
    (removalIdxs_sorted _)
    (fun c hc => ⟨Nat.zero_le c, removalIdxs_lt_length _ c hc⟩)
    (Nat.zero_le _)
  omega

theorem cesspit_deltasTimeline_length (records : List TankLevel)
    (p n : Option TankLevel) (f e : Int)
    (hne : splicedRecords records p n ≠ []) :
    ((mkCesspitHistory records p n f e).deltasTimeline).length =
      ((mkCesspitHistory records p n f e).deltas).length := by
  have hlv : (splicedLevels records p n f).length =
      (splicedRecords records p n).length := splicedLevels_length records p n f
  have htl : (splicedTimeline records p n).length =
      (splicedLevels records p n f).length := splicedTimeline_length records p n f
  have hpos : 0 < (splicedRecords records p n).length := List.length_pos.mpr hne
  have hds := deltasOf_length (splicedLevels records p n f)
  have heq : (mkCesspitHistory records p n f e).deltasTimeline =
      (gapSlices (splicedTimeline records p n) 1
        ((removalIdxs (deltasOf (splicedLevels records p n f))).map (· + 1))).flatten := by
    show (codeDropSegs _ _).flatten = _
    rw [codeDropSegs_eq]
  have htlen := gapSlices_flatten_length (splicedTimeline records p n)
    ((removalIdxs (deltasOf (splicedLevels records p n f))).map (· + 1)) 1
    (removal_cuts_pairwise _)
    (fun c hc => by
      obtain ⟨i, hi, rfl⟩ := List.mem_map.mp hc
      have := removalIdxs_lt_length _ i hi
      constructor
      · omega
      · omega)
    (by omega)
  have hdlen := cesspit_deltas_length records p n f e
  rw [heq]
  simp only [List.length_map] at htlen
  omega

theorem cesspit_conservation_ph (records : List TankLevel) (p n : Option TankLevel)
    (f e : Int) (hne : splicedRecords records p n ≠ []) :
    sumInt (cesspitPhDeltas (mkCesspitHistory records p n f e)) =
      sumInt ((mkCesspitHistory records p n f e).deltas) := by
  set h := mkCesspitHistory records p n f e with hdef
  have hsorted : ((cesspitPhTimeline h).tail).Pairwise (· ≤ ·) :=
    ((cesspitPhTimeline_pairwise h).tail).imp le_of_lt
  have hzip : (h.deltasTimeline.zip h.deltas).map Prod.snd = h.deltas :=
    List.map_snd_zip _ _ (le_of_eq (cesspit_deltasTimeline_length records p n f e hne).symm)
  unfold cesspitPhDeltas
  rw [sumInt_eq_sum, sumInt_eq_sum, clusterBuckets_total _ _ hsorted, hzip]

theorem cesspit_conservation_pd (records : List TankLevel) (p n : Option TankLevel)
    (f e : Int) (hne : splicedRecords records p n ≠ []) :
    sumInt (cesspitPdDeltas (mkCesspitHistory records p n f e)) =
      sumInt ((mkCesspitHistory records p n f e).deltas) := by
  set h := mkCesspitHistory records p n f e with hdef
  have hsorted : ((cesspitPdTimeline h).tail).Pairwise (· ≤ ·) :=
    ((cesspitPdTimeline_pairwise h).tail).imp le_of_lt
  have hzip : (h.deltasTimeline.zip h.deltas).map Prod.snd = h.deltas :=
    List.map_snd_zip _ _ (le_of_eq (cesspit_deltasTimeline_length records p n f e hne).symm)
  unfold cesspitPdDeltas
  rw [sumInt_eq_sum, sumInt_eq_sum, clusterBuckets_total _ _ hsorted, hzip]

end Conservation

/-- C3: for an ascending boundary list each value is assigned to exactly one
of the `m+1` buckets, characterized by the half-open intervals of the claim;
the code's first-match scan picks exactly that bucket; an empty bucket
aggregates to 0; and the sum of the per-hour (and per-day) aggregated deltas
equals the sum of the retained delta sequence. -/
theorem claim_C3 (tops : List Int) (objs : List (Int × Int))
    (hs : tops.Pairwise (· ≤ ·))
    (records : List TankLevel) (p n : Option TankLevel) (f e : Int)
    (hne : splicedRecords records p n ≠ []) :
    (∀ v : Int, ∃! k : Nat, inBucket tops k v) ∧
    (∀ v : Int, ∃ k : Nat, findFirstMatch (clusterDefs tops) v = some k ∧
      inBucket tops k v) ∧
    (∀ b ∈ clusterBuckets tops objs, b = [] → sumInt b = 0) ∧
    ((clusterBuckets tops objs).map sumInt).sum = (objs.map Prod.snd).sum ∧
    sumInt (cesspitPhDeltas (mkCesspitHistory records p n f e)) =
      sumInt ((mkCesspitHistory records p n f e).deltas) ∧
    sumInt (cesspitPdDeltas (mkCesspitHistory records p n f e)) =
      sumInt ((mkCesspitHistory records p n f e).deltas) := by
  refine ⟨?_, ?_, ?_, clusterBuckets_total tops objs hs,
    cesspit_conservation_ph records p n f e hne,
    cesspit_conservation_pd records p n f e hne⟩
  · intro v
    exact ⟨tops.countP (fun t => decide (t < v)), inBucket_countP tops v hs,
      fun k hk => inBucket_unique tops v k hs hk⟩
  · intro v
    exact ⟨tops.countP (fun t => decide (t < v)), findFirst_clusterDefs tops v hs,
      inBucket_countP tops v hs⟩
  · intro b _ hb
    rw [hb]
    rfl

/-- C3 witness: the clustering statement applied to concrete boundaries,
pairs and a concrete history. -/
theorem claim_C3_witness :
    List.Pairwise (· ≤ ·) [(5 : Int), 10] ∧
    splicedRecords [⟨0, 800⟩, ⟨3600000000, 700⟩] none none ≠ [] ∧
    (((clusterBuckets [(5 : Int), 10] [(3, 2), (7, 4), (12, 6)]).map sumInt).sum =
      ([((3 : Int), (2 : Int)), (7, 4), (12, 6)].map Prod.snd).sum ∧
     sumInt (cesspitPhDeltas (mkCesspitHistory [⟨0, 800⟩, ⟨3600000000, 700⟩]
        none none 500 1000)) =
      sumInt ((mkCesspitHistory [⟨0, 800⟩, ⟨3600000000, 700⟩] none none 500 1000).deltas)) :=
  ⟨by decide, by decide,
    (claim_C3 [(5 : Int), 10] [(3, 2), (7, 4), (12, 6)] (by decide)
      [⟨0, 800⟩, ⟨3600000000, 700⟩] none none 500 1000 (by decide)).2.2.2.1,
    (claim_C3 [(5 : Int), 10] [(3, 2), (7, 4), (12, 6)] (by decide)
      [⟨0, 800⟩, ⟨3600000000, 700⟩] none none 500 1000 (by decide)).2.2.2.2.1⟩

/-- C9 counterexample: a valid chronology whose date is exactly 23:00:00
produces a per-hour timeline whose extra mark duplicates the 23:00 round
hour, so the timeline is not strictly increasing. -/
theorem claim_C9_cex :
    chronIsValid [⟨82000000000, 15⟩] = true ∧
    ¬ (tempPhTimeline 82800000000).Pairwise (· < ·) := by
  constructor
  · rfl
  · decide

/-- C9 (amended): the temperature per-hour timeline is strictly increasing
whenever the date is not exactly the instant 23:00:00.000000 of its day (at
that instant the extra mark appended for hour 23 duplicates the last round
hour); the tank per-hour and per-day timelines are strictly increasing for
every instance. -/
theorem claim_C9 (theDate : Int) (records : List TankLevel) (p n : Option TankLevel)
    (f e : Int) (hd : theDate.emod usPerDay ≠ 82800000000) :
    (tempPhTimeline theDate).Pairwise (· < ·) ∧
    (cesspitPhTimeline (mkCesspitHistory records p n f e)).Pairwise (· < ·) ∧
    (cesspitPdTimeline (mkCesspitHistory records p n f e)).Pairwise (· < ·) := by
  refine ⟨?_, cesspitPhTimeline_pairwise _, cesspitPdTimeline_pairwise _⟩
  unfold tempPhTimeline
  refine List.pairwise_append.mpr ⟨range_map_affine_pairwise _ usPerHour (by decide) _,
    ?_, ?_⟩
  · by_cases h23 : hourOfDay theDate = 23 <;> simp [h23]
  · intro a ha b hb
    by_cases h23 : hourOfDay theDate = 23
    · simp only [h23, if_pos] at hb
      have hb2 : b = theDate := by simpa using hb
      obtain ⟨k, hk, rfl⟩ := List.mem_map.mp ha
      have hk2 : k < 24 := by
        rw [List.mem_range, h23] at hk
        omega
      have hnn : 0 ≤ theDate.emod usPerDay :=
        Int.emod_nonneg theDate (by decide)
      have htn : theDate.emod usPerDay = ((theDate.emod usPerDay).toNat : Int) :=
        (Int.toNat_of_nonneg hnn).symm
      have hdiv := Nat.div_add_mod (theDate.emod usPerDay).toNat 3600000000
      have hmodlt : (theDate.emod usPerDay).toNat % 3600000000 < 3600000000 :=
        Nat.mod_lt _ (by omega)
      have h23n : (theDate.emod usPerDay).toNat / 3600000000 = 23 := h23
      have hbig : (82800000000 : Int) < theDate.emod usPerDay := by
        rw [htn]
        rw [htn] at hd
        omega
      have hkcast : (k : Int) ≤ 23 := by exact_mod_cast Nat.le_of_lt_succ hk2
      have hmul : usPerHour * (k : Int) ≤ 82800000000 := by
        have := mul_le_mul_of_nonneg_left hkcast (show (0 : Int) ≤ usPerHour by decide)
        unfold usPerHour at this ⊢
        omega
      rw [hb2]
      unfold floorDay
      omega
    · simp [h23] at hb

/-- C9 witness: the amended monotonicity statement applied to a concrete date
and history. -/
theorem claim_C9_witness :
    (18000000000 : Int).emod usPerDay ≠ 82800000000 ∧
    (tempPhTimeline 18000000000).Pairwise (· < ·) :=
  ⟨by decide,
    (claim_C9 18000000000 [⟨0, 800⟩] none none 500 1000 (by decide)).1⟩

section TemperatureLemmas

theorem observationsAt_nil (hm : Int) : observationsAt [] hm = [] := rfl

theorem phEstimateE_nil (hm : Int) : phEstimateE [] hm = .ok none := rfl

theorem collectPh_nil (hs : List Int) : collectPh [] hs = .ok [] := by
  induction hs with
  | nil => rfl
  | cons h0 hs ih => simp [collectPh, phEstimateE_nil, ih]

theorem initRaw_nil (theDate sunrise sunset : Int) (ift : Bool) :
    initRaw [] theDate sunrise sunset ift =
      ⟨[], none, none, none, none, none, none, none, none, none⟩ := by
  simp [initRaw, dayIdxs, nightIdxs, argminIdx, argmaxIdx, meanOver]

theorem foldl_opt_some (step : Option Nat → Nat → Option Nat)
    (hstep : ∀ j i, ∃ k, step (some j) i = some k) (cs : List Nat) (j : Nat) :
    ∃ k, cs.foldl step (some j) = some k := by
  induction cs generalizing j with
  | nil => exact ⟨j, rfl⟩
  | cons i cs ih =>
      obtain ⟨k, hk⟩ := hstep j i
      rw [List.foldl_cons, hk]
      exact ih k

theorem argminIdx_some (recs : List TempReading) (idxs : List Nat)
    (hne : idxs ≠ []) : ∃ k, argminIdx recs idxs = some k := by
  cases idxs with
  | nil => exact absurd rfl hne
  | cons c cs =>
      unfold argminIdx
      rw [List.foldl_cons]
      refine foldl_opt_some _ ?_ cs c
      intro j i
      show ∃ k, (if (recs.getD j default).temperature > (recs.getD i default).temperature
        then some i else some j) = some k
      by_cases hc : (recs.getD j default).temperature > (recs.getD i default).temperature
      · exact ⟨i, by rw [if_pos hc]⟩
      · exact ⟨j, by rw [if_neg hc]⟩

theorem argmaxIdx_some (recs : List TempReading) (idxs : List Nat)
    (hne : idxs ≠ []) : ∃ k, argmaxIdx recs idxs = some k := by
  cases idxs with
  | nil => exact absurd rfl hne
  | cons c cs =>
      unfold argmaxIdx
      rw [List.foldl_cons]
      refine foldl_opt_some _ ?_ cs c
      intro j i
      show ∃ k, (if (recs.getD j default).temperature < (recs.getD i default).temperature
        then some i else some j) = some k
      by_cases hc : (recs.getD j default).temperature < (recs.getD i default).temperature
      · exact ⟨i, by rw [if_pos hc]⟩
      · exact ⟨j, by rw [if_neg hc]⟩

end TemperatureLemmas

/-- C4 counterexample: two observations share the hour mark's exact instant
(identical offsets); `linregress` raises its identical-x `ValueError` instead
of falling back to the arithmetic mean `(15 + 17) / 2 = 16`. -/
theorem claim_C4_cex :
    (observationsAt [⟨86400000000, 15⟩, ⟨86400000000, 17⟩] 86400000000).length = 2 ∧
    phEstimateE [⟨86400000000, 15⟩, ⟨86400000000, 17⟩] 86400000000 = .raises ∧
    phEstimateE [⟨86400000000, 15⟩, ⟨86400000000, 17⟩] 86400000000 ≠
      .ok (some ((15 + 17) / 2)) := by
  have hobs : observationsAt [⟨86400000000, 15⟩, ⟨86400000000, 17⟩] 86400000000 =
      [⟨86400000000, 15⟩, ⟨86400000000, 17⟩] := rfl
  have hraises : phEstimateE [⟨86400000000, 15⟩, ⟨86400000000, 17⟩] 86400000000 =
      .raises := by
    unfold phEstimateE
    rw [hobs]
    rw [if_pos (by norm_num)]
    unfold linregressIntercept
    rw [if_pos (by norm_num)]
    rw [if_pos (by simp [allEqual, offsetSec])]
  refine ⟨rfl, hraises, ?_⟩
  rw [hraises]
  intro hcontra
  exact PyResult.noConfusion hcontra

/-- C4 (amended): when an hour mark's observation set has at least two
members all sharing the same time offset, the scipy regression raises and the
numerical error propagates out of `_init_ph`: no per-hour estimate (and in
particular not the arithmetic mean) is produced. -/
theorem claim_C4 (records : List TempReading) (hm : Int)
    (hlen : 1 < (observationsAt records hm).length)
    (heq : allEqual ((observationsAt records hm).map (fun r => offsetSec r hm)) = true) :
    phEstimateE records hm = .raises := by
  unfold phEstimateE
  rw [if_pos hlen]
  have hxs : ((observationsAt records hm).map
        (fun r => (offsetSec r hm, r.temperature))).map Prod.fst =
      (observationsAt records hm).map (fun r => offsetSec r hm) := by
    rw [List.map_map]
    rfl
  unfold linregressIntercept
  rw [if_pos (by simpa using hlen)]
  rw [hxs, if_pos heq]

/-- C4 witness: the amended statement applied to the degenerate two-reading
input. -/
theorem claim_C4_witness :
    1 < (observationsAt [⟨86400000000, 15⟩, ⟨86400000000, 18⟩] 86400000000).length ∧
    allEqual ((observationsAt [⟨86400000000, 15⟩, ⟨86400000000, 18⟩] 86400000000).map
      (fun r => offsetSec r 86400000000)) = true ∧
    phEstimateE [⟨86400000000, 15⟩, ⟨86400000000, 18⟩] 86400000000 = .raises := by
  have hobs : observationsAt [⟨86400000000, 15⟩, ⟨86400000000, 18⟩] 86400000000 =
      [⟨86400000000, 15⟩, ⟨86400000000, 18⟩] := rfl
  have h1 : 1 < (observationsAt [⟨86400000000, 15⟩, ⟨86400000000, 18⟩]
      86400000000).length := by
    rw [hobs]
    norm_num
  have h2 : allEqual ((observationsAt [⟨86400000000, 15⟩, ⟨86400000000, 18⟩]
      86400000000).map (fun r => offsetSec r 86400000000)) = true := by
    rw [hobs]
    simp [allEqual, offsetSec]
  exact ⟨h1, h2, claim_C4 [⟨86400000000, 15⟩, ⟨86400000000, 18⟩] 86400000000 h1 h2⟩

/-- C6 counterexample: on an empty record list, `is_valid()` is false as
claimed, but the accessor `get_raw_last` raises `IndexError` instead of
returning `(None, None)` or `None`. -/
theorem claim_C6_cex :
    chronIsValid [] = false ∧ getRawLast [] = .raises := by
  exact ⟨rfl, rfl⟩

/-- C6 (amended): construction with an empty record list succeeds, yields
`is_valid() = false`, and `is_valid()` is true exactly for a non-empty record
list; the min/max statistics accessors return `(None, None)`, the averages
return `None`, and the collected per-hour temperature list is empty — but
`get_raw_last` and `get_perhour_last` raise `IndexError` on the empty
chronology rather than returning `None`. -/
theorem claim_C6 (theDate sunrise sunset : Int) (ift : Bool) :
    chronIsValid [] = false ∧
    (∀ records : List TempReading, chronIsValid records = true ↔ records ≠ []) ∧
    getMinDaily [] theDate sunrise sunset ift = (none, none) ∧
    getMaxDaily [] theDate sunrise sunset ift = (none, none) ∧
    getMinDay [] theDate sunrise sunset ift = (none, none) ∧
    getMaxDay [] theDate sunrise sunset ift = (none, none) ∧
    getMinNight [] theDate sunrise sunset ift = (none, none) ∧
    getMaxNight [] theDate sunrise sunset ift = (none, none) ∧
    getAvgDaily [] theDate sunrise sunset ift = none ∧
    getAvgDay [] theDate sunrise sunset ift = none ∧
    getAvgNight [] theDate sunrise sunset ift = none ∧
    collectPh [] (tempPhTimeline theDate) = .ok [] ∧
    getRawLast [] = .raises ∧
    getPerhourLast [] theDate = .raises := by
  refine ⟨rfl, ?_, ?_, ?_, ?_, ?_, ?_, ?_, ?_, ?_, ?_, collectPh_nil _, rfl, ?_⟩
  · intro records
    rw [chronIsValid]
    cases records <;> simp
  · rw [getMinDaily, initRaw_nil]
    rfl
  · rw [getMaxDaily, initRaw_nil]
    rfl
  · rw [getMinDay, initRaw_nil]
    rfl
  · rw [getMaxDay, initRaw_nil]
    rfl
  · rw [getMinNight, initRaw_nil]
    rfl
  · rw [getMaxNight, initRaw_nil]
    rfl
  · rw [getAvgDaily, initRaw_nil]
  · rw [getAvgDay, initRaw_nil]
  · rw [getAvgNight, initRaw_nil]
  · rw [getPerhourLast, collectPh_nil]
    cases hlast : (tempPhTimeline theDate).getLast? <;> simp

/-- C5 counterexample: a chronology with two day readings and no night
readings; forcing `_init_raw` (e.g. through `get_min_night`) overwrites the
timestamps of both input records in place (they are pinned to sunrise and
sunset), so the input records do not keep their original field values. -/
theorem claim_C5_cex :
    (initRaw [⟨36000000000, 10⟩, ⟨43200000000, 14⟩]
        43200000000 21600000000 72000000000 false).records ≠
      [⟨36000000000, 10⟩, ⟨43200000000, 14⟩] ∧
    (initRaw [⟨36000000000, 10⟩, ⟨43200000000, 14⟩]
        43200000000 21600000000 72000000000 false).records =
      [⟨21600000000, 10⟩, ⟨72000000000, 14⟩] := by
  have heq : (initRaw [⟨36000000000, 10⟩, ⟨43200000000, 14⟩]
      43200000000 21600000000 72000000000 false).records =
      [⟨21600000000, 10⟩, ⟨72000000000, 14⟩] := by
    decide
  refine ⟨?_, heq⟩
  rw [heq]
  intro hcontra
  have := List.head_eq_of_cons_eq hcontra
  have h2 : (21600000000 : Int) = 36000000000 := congrArg TempReading.timestamp this
  norm_num at h2

/-- C5 (amended): the statistics accessors leave every input record unchanged
whenever both the day and the night partitions are non-empty; when one
partition is empty, the boundary-synthesis/copy heuristic of `_init_raw`
overwrites the timestamp of the aliased input record(s) in place. -/
theorem claim_C5 (records : List TempReading) (theDate sunrise sunset : Int)
    (ift : Bool) (hday : dayIdxs records sunrise sunset ≠ [])
    (hnight : nightIdxs records sunrise sunset ≠ []) :
    (initRaw records theDate sunrise sunset ift).records = records := by
  obtain ⟨kn, hkn⟩ := argminIdx_some records _ hnight
  obtain ⟨kxn, hkxn⟩ := argmaxIdx_some records _ hnight
  obtain ⟨kd, hkd⟩ := argminIdx_some records _ hday
  obtain ⟨kxd, hkxd⟩ := argmaxIdx_some records _ hday
  rw [initRaw]
  simp only [hkn, hkxn, hkd, hkxd]
  simp

/-- C5 witness: the no-mutation statement applied to a chronology with one
day and one night reading. -/
theorem claim_C5_witness :
    dayIdxs [⟨10000000000, 5⟩, ⟨36000000000, 10⟩] 21600000000 72000000000 ≠ [] ∧
    nightIdxs [⟨10000000000, 5⟩, ⟨36000000000, 10⟩] 21600000000 72000000000 ≠ [] ∧
    (initRaw [⟨10000000000, 5⟩, ⟨36000000000, 10⟩]
        43200000000 21600000000 72000000000 false).records =
      [⟨10000000000, 5⟩, ⟨36000000000, 10⟩] := by
  have h1 : dayIdxs [⟨10000000000, 5⟩, ⟨36000000000, 10⟩]
      21600000000 72000000000 ≠ [] := by decide
  have h2 : nightIdxs [⟨10000000000, 5⟩, ⟨36000000000, 10⟩]
      21600000000 72000000000 ≠ [] := by decide
  exact ⟨h1, h2, claim_C5 [⟨10000000000, 5⟩, ⟨36000000000, 10⟩]
    43200000000 21600000000 72000000000 false h1 h2⟩

section TwoPoint

theorem linregress_two_point (x1 y1 x2 y2 : ℚ) (hne : x1 ≠ x2) :
    linregressIntercept [(x1, y1), (x2, y2)] = some (lineValueAt x1 y1 x2 y2 0) := by
  unfold linregressIntercept
  rw [if_pos (by norm_num)]
  have hae : allEqual ([(x1, y1), (x2, y2)].map Prod.fst) = false := by
    simp [allEqual]
    exact fun hcontra => hne hcontra.symm
  rw [if_neg (by rw [hae]; simp)]
  simp only [List.map_cons, List.map_nil, List.sum_cons, List.sum_nil, List.length_cons,
    List.length_nil]
  congr 1
  unfold lineValueAt
  have h2 : ((0 + 1 + 1 : Nat) : ℚ) = 2 := by norm_num
  rw [h2]
  have hsub : x1 - x2 ≠ 0 := sub_ne_zero.mpr hne
  have hsub2 : x2 - x1 ≠ 0 := sub_ne_zero.mpr (Ne.symm hne)
  have hden : (x1 - (x1 + (x2 + 0)) / 2) ^ 2 + ((x2 - (x1 + (x2 + 0)) / 2) ^ 2 + 0) =
      (x1 - x2) ^ 2 / 2 := by ring
  rw [hden]
  have hd2 : (x1 - x2) ^ 2 / 2 ≠ 0 := div_ne_zero (pow_ne_zero 2 hsub) (by norm_num)
  field_simp
  ring

theorem phEstimate_two_obs (records : List TempReading) (hm : Int) (r1 r2 : TempReading)
    (hobs : observationsAt records hm = [r1, r2])
    (hts : r1.timestamp ≠ r2.timestamp) :
    phEstimateE records hm =
      .ok (some (lineValueAt (offsetSec r1 hm) r1.temperature
        (offsetSec r2 hm) r2.temperature 0)) := by
  have hx12 : offsetSec r1 hm ≠ offsetSec r2 hm := by
    unfold offsetSec
    intro hcontra
    apply hts
    field_simp at hcontra
    exact_mod_cast hcontra
  simp only [phEstimateE]
  rw [hobs]
  rw [if_pos (by norm_num)]
  have hmap : ([r1, r2].map fun r => (offsetSec r hm, r.temperature)) =
      [(offsetSec r1 hm, r1.temperature), (offsetSec r2 hm, r2.temperature)] := rfl
  rw [hmap, linregress_two_point _ _ _ _ hx12]

end TwoPoint

/-- C8: for an hour mark whose observation set is exactly two observations
with distinct timestamps (hence distinct offsets), the per-hour estimate is
the value at offset 0 of the straight line through the two
(offset, temperature) points; in particular observations at offsets −600 s
with 15 °C and +600 s with 17 °C give the estimate 16 °C with both error
bounds equal to 1. -/
theorem claim_C8 :
    (∀ (records : List TempReading) (hm : Int) (r1 r2 : TempReading),
      observationsAt records hm = [r1, r2] →
      r1.timestamp ≠ r2.timestamp →
      phEstimateE records hm =
        .ok (some (lineValueAt (offsetSec r1 hm) r1.temperature
          (offsetSec r2 hm) r2.temperature 0))) ∧
    phEstimateE [⟨85800000000, 15⟩, ⟨87000000000, 17⟩] 86400000000 = .ok (some 16) ∧
    phErrorPair [⟨85800000000, 15⟩, ⟨87000000000, 17⟩] 86400000000 = some (1, 1) := by
  have hobs0 : observationsAt [⟨85800000000, 15⟩, ⟨87000000000, 17⟩] 86400000000 =
      [⟨85800000000, 15⟩, ⟨87000000000, 17⟩] := rfl
  have h1 := phEstimate_two_obs _ 86400000000 ⟨85800000000, 15⟩ ⟨87000000000, 17⟩
    hobs0 (by decide)
  norm_num [offsetSec, lineValueAt] at h1
  refine ⟨phEstimate_two_obs, h1, ?_⟩
  unfold phErrorPair
  rw [h1, hobs0]
  show some (|16 - minQ 15 [17]|, |16 - maxQ 15 [17]|) = some (1, 1)
  have hmin : minQ 15 [17] = 15 := by
    simp [minQ]
    norm_num
  have hmax : maxQ 15 [17] = 17 := by
    simp [maxQ]
    norm_num
  rw [hmin, hmax]
  norm_num

/-- C8 witness: the two-point statement applied to the concrete −600 s/+600 s
observations. -/
theorem claim_C8_witness :
    observationsAt [⟨85800000000, 15⟩, ⟨87000000000, 17⟩] 86400000000 =
      [⟨85800000000, 15⟩, ⟨87000000000, 17⟩] ∧
    ((⟨85800000000, 15⟩ : TempReading).timestamp ≠
      (⟨87000000000, 17⟩ : TempReading).timestamp) ∧
    phEstimateE [⟨85800000000, 15⟩, ⟨87000000000, 17⟩] 86400000000 =
      .ok (some (lineValueAt (offsetSec ⟨85800000000, 15⟩ 86400000000) 15
        (offsetSec ⟨87000000000, 17⟩ 86400000000) 17 0)) :=
  ⟨rfl, by decide,
    claim_C8.1 [⟨85800000000, 15⟩, ⟨87000000000, 17⟩] 86400000000
      ⟨85800000000, 15⟩ ⟨87000000000, 17⟩ rfl (by decide)⟩
